import Mathlib

/-!
Shallow embedding of the static event-page generator
(src/generate_event_page.py) together with proofs about its value
normalizers, header resolution, grouping, status engine, leaderboard
aggregation and orchestration.

Python strings are modelled as Lean strings over their character lists;
the Python builtins the script relies on (str.strip, str.lower,
str.upper, str.split, int(), float(), `or` defaulting, dict.get,
f-string formatting of integers) are embedded for the ASCII range the
repository's data lives in.
-/

/-- Whitespace characters removed by Python str.strip, modelled over the
ASCII range: space, tab, newline, carriage return, vertical tab, form feed. -/
def isPyWs (c : Char) : Bool :=
  c = ' ' || c = '\t' || c = '\n' || c = '\r' || c.toNat = 11 || c.toNat = 12

/-- Python str.strip on a character list: drop whitespace from both ends. -/
def pyStripChars (cs : List Char) : List Char :=
  ((cs.dropWhile isPyWs).reverse.dropWhile isPyWs).reverse

/-- Python str.strip. -/
def pyStrip (s : String) : String := String.mk (pyStripChars s.data)

/-- Python str.lower (ASCII range). -/
def pyLower (s : String) : String := String.mk (s.data.map Char.toLower)

/-- Python str.upper (ASCII range). -/
def pyUpper (s : String) : String := String.mk (s.data.map Char.toUpper)

/-- Numeric value of an ASCII digit character. -/
def dval (c : Char) : Nat := c.toNat - 48

/-- Core of Python int() digit scanning: consume digits, allowing a single
underscore between two digits (Python accepts digit-group separators such
as "1_000"); any other character, a trailing underscore, or a doubled
underscore is a ValueError (None). -/
def digitsUCore : Nat → List Char → Option Nat
  | acc, [] => some acc
  | acc, c :: cs =>
    if c.isDigit then digitsUCore (acc * 10 + dval c) cs
    else if c = '_' then
      match cs with
      | [] => none
      | d :: _ => if d.isDigit then digitsUCore acc cs else none
    else none

/-- Digit part of Python int(): non-empty, must start with a digit. -/
def parseUDigits (cs : List Char) : Option Nat :=
  match cs with
  | [] => none
  | c :: _ => if c.isDigit then digitsUCore 0 cs else none

/-- Python int(str) over ASCII text: strip whitespace, then an optional
sign followed by digits (with underscore separators); None is ValueError. -/
def pyIntOfChars (cs0 : List Char) : Option Int :=
  match pyStripChars cs0 with
  | [] => none
  | c :: rest =>
    if c = '+' then (parseUDigits rest).map Int.ofNat
    else if c = '-' then (parseUDigits rest).map (fun n => -(Int.ofNat n))
    else (parseUDigits (c :: rest)).map Int.ofNat

/-- Python int(str) on a Lean string. -/
def pyInt (s : String) : Option Int := pyIntOfChars s.data

/-- parse_american_odds: trim, empty means unknown, otherwise Python int()
with ValueError mapped to None (src/generate_event_page.py lines 72-81). -/
def parse_american_odds (s : String) : Option Int :=
  if pyStrip s = "" then none else pyInt (pyStrip s)

/-- Decimal digits of a natural number, most significant first, with a
structural fuel argument (any fuel above the value suffices). -/
def natDecimalCharsAux : Nat → Nat → List Char
  | 0, _ => []
  | fuel + 1, n =>
    if n < 10 then [Char.ofNat (48 + n)]
    else natDecimalCharsAux fuel (n / 10) ++ [Char.ofNat (48 + n % 10)]

/-- Decimal digits of a natural number, most significant first (the
rendering Python str() produces for a non-negative int). -/
def natDecimalChars (n : Nat) : List Char := natDecimalCharsAux (n + 1) n

/-- Python str() of a non-negative integer. -/
def strNat (n : Nat) : String := String.mk (natDecimalChars n)

/-- Python str() of an integer: minus sign followed by digits for negative
values, plain digits otherwise. -/
def strInt (v : Int) : String :=
  if v < 0 then String.mk ('-' :: natDecimalChars v.natAbs) else strNat v.toNat

/-- Value-level half of format_odds: "TBD" for unknown odds, a "+" prefixed
decimal for positive odds, str() otherwise (src lines 83-95). -/
def formatOddsValue (v : Option Int) : String :=
  match v with
  | none => "TBD"
  | some n => if n > 0 then "+" ++ strInt n else strInt n

/-- format_odds: parse then render (src lines 83-95). -/
def format_odds (s : String) : String := formatOddsValue (parse_american_odds s)

/-- Python str.split with a one-character separator (non-empty separator
semantics: "" gives [""], ":" gives ["", ""]). -/
def splitChar (sep : Char) : List Char → List (List Char)
  | [] => [[]]
  | c :: rest =>
    match splitChar sep rest with
    | [] => [[]]
    | g :: gs => if c = sep then [] :: g :: gs else (c :: g) :: gs

/-- Python f-string "{m:02d}": zero-pad a one-digit non-negative value to
two characters, otherwise plain str(). -/
def pad2Int (m : Int) : String :=
  if 0 ≤ m ∧ m < 10 then "0" ++ strNat m.toNat else strInt m

/-- format_start_time (src lines 98-121): empty input gives "Unknown";
fewer than two colon-separated parts, or unparseable hour or minute,
returns the trimmed input unchanged; otherwise renders 12-hour time.
Python % on a positive modulus is Int.emod. -/
def format_start_time (s : String) : String :=
  if pyStrip s = "" then "Unknown"
  else
    match splitChar ':' (pyStrip s).data with
    | p0 :: p1 :: _ =>
      match pyIntOfChars p0, pyIntOfChars p1 with
      | some hour24, some minute =>
        strInt (if hour24 % 12 = 0 then (12 : Int) else hour24 % 12) ++ ":" ++
          pad2Int minute ++ (if hour24 < 12 then "am" else "pm") ++ " EST"
      | _, _ => pyStrip s
    | _ => pyStrip s

/-- Characters kept by sanitize_event_id's character class [A-Za-z0-9_-];
anything else becomes an underscore (src lines 195-197). -/
def sanitizeChar (c : Char) : Char :=
  if c.isAlpha || c.isDigit || c = '_' || c = '-' then c else '_'

/-- sanitize_event_id: trim, then replace unsafe characters. -/
def sanitize_event_id (s : String) : String :=
  String.mk ((pyStrip s).data.map sanitizeChar)

/-- One CSV row as Python's csv.DictReader yields it: an association of
header text to cell text (a dict, so keys are unique; lookup is by the
first matching key). -/
abbrev Record := List (String × String)

/-- Python row.get(k): None when the key is absent. -/
def pyGet (row : Record) (k : String) : Option String :=
  (row.find? (fun p => decide (p.1 = k))).map (fun p => p.2)

/-- Python `value or default` on an optional string: None and "" are falsy. -/
def pyOrStr (v : Option String) (d : String) : String :=
  match v with
  | none => d
  | some s => if s = "" then d else s

/-- Python `(row.get(k) or d)`. -/
def getOr (row : Record) (k d : String) : String := pyOrStr (pyGet row k) d

/-- Python `k in row` for a dict-shaped row. -/
def hasKey (row : Record) (k : String) : Bool := row.any (fun p => decide (p.1 = k))

/-- pick_first_key (src lines 39-47): first listed key present in the row,
or the empty string. -/
def pick_first_key (row : Record) : List String → String
  | [] => ""
  | k :: rest => if hasKey row k then k else pick_first_key row rest

/-- The canonical key map built by main (src lines 649-662). -/
structure Keys where
  event_id : String
  event : String
  date : String
  start_time : String
  country : String
  location : String
  venue : String
  matchname : String
  wrestler : String
  champion : String
  odds : String
  result : String

deriving instance DecidableEq, Repr for Keys

/-- Header synonyms accepted for each semantic field (src lines 649-662). -/
def synonymsOf (name : String) : List String :=
  if name = "event_id" then ["EventID"]
  else if name = "event" then ["Event"]
  else if name = "date" then ["Date"]
  else if name = "start_time" then ["StartTime", "Start Time"]
  else if name = "country" then ["Country"]
  else if name = "location" then ["Location"]
  else if name = "venue" then ["Venue"]
  else if name = "match" then ["Match"]
  else if name = "wrestler" then ["Wrestler"]
  else if name = "champion" then ["CurrentChamp", "Current Champ (Y/N)"]
  else if name = "odds" then ["Odds"]
  else if name = "result" then ["Result"]
  else []

/-- Resolution of the key map from the first record (src lines 649-662). -/
def resolveKeys (row : Record) : Keys where
  event_id := pick_first_key row (synonymsOf "event_id")
  event := pick_first_key row (synonymsOf "event")
  date := pick_first_key row (synonymsOf "date")
  start_time := pick_first_key row (synonymsOf "start_time")
  country := pick_first_key row (synonymsOf "country")
  location := pick_first_key row (synonymsOf "location")
  venue := pick_first_key row (synonymsOf "venue")
  matchname := pick_first_key row (synonymsOf "match")
  wrestler := pick_first_key row (synonymsOf "wrestler")
  champion := pick_first_key row (synonymsOf "champion")
  odds := pick_first_key row (synonymsOf "odds")
  result := pick_first_key row (synonymsOf "result")

/-- The required field names, in the order main lists them (src line 664). -/
def requiredKeyNames : List String :=
  ["event_id", "event", "date", "start_time", "country", "location", "venue",
   "match", "wrestler", "champion", "odds"]

/-- keys.get(name) on the resolved key map. -/
def keyValue (k : Keys) (name : String) : String :=
  if name = "event_id" then k.event_id
  else if name = "event" then k.event
  else if name = "date" then k.date
  else if name = "start_time" then k.start_time
  else if name = "country" then k.country
  else if name = "location" then k.location
  else if name = "venue" then k.venue
  else if name = "match" then k.matchname
  else if name = "wrestler" then k.wrestler
  else if name = "champion" then k.champion
  else if name = "odds" then k.odds
  else if name = "result" then k.result
  else ""

/-- missing = [name for name in required_keys if not keys.get(name)]
(src line 665). -/
def missingColumns (row : Record) : List String :=
  requiredKeyNames.filter (fun name => decide (keyValue (resolveKeys row) name = ""))

/-- normalize (src lines 34-36): trim then lowercase. Named normalizeText here
because Mathlib already owns the name normalize. -/
def normalizeText (s : String) : String := pyLower (pyStrip s)

/-- One step of get_available_event_ids' OrderedDict collection. -/
def collectEventIds (key : String) (acc : List String) (row : Record) : List String :=
  if pyStrip (getOr row key "") = "" then acc
  else if acc.contains (pyStrip (getOr row key "")) then acc
  else acc ++ [pyStrip (getOr row key "")]

/-- get_available_event_ids (src lines 57-64): distinct trimmed non-empty
EventIDs in first-appearance order. -/
def get_available_event_ids (rows : List Record) (key : String) : List String :=
  rows.foldl (collectEventIds key) []

/-- Row selection for one event (src lines 680-683): normalized equality. -/
def selectEventRows (rows : List Record) (key id : String) : List Record :=
  rows.filter (fun row => decide (normalizeText (getOr row key "") = normalizeText id))

/-- Display event name (src line 222): default applied before trimming. -/
def rawEventNameOf (keys : Keys) (row : Record) : String :=
  pyStrip (getOr row keys.event "Unknown Event")

/-- Match grouping key (src lines 245 and 413): default before trimming. -/
def matchNameOf (keys : Keys) (row : Record) : String :=
  pyStrip (getOr row keys.matchname "Unknown Match")

/-- Display wrestler name (src lines 253 and 425): default before trimming. -/
def wrestlerNameOf (keys : Keys) (row : Record) : String :=
  pyStrip (getOr row keys.wrestler "Unknown Wrestler")

/-- is_current_champion (src lines 67-69). -/
def is_current_champion (s : String) : Bool :=
  normalizeText s = "y" || normalizeText s = "yes" || normalizeText s = "true" || normalizeText s = "1"

/-- Result letter of one row (src lines 259-262 and 431-432): empty unless
a Result column resolved and the trimmed uppercased cell is W or L. -/
def resultValueOf (keys : Keys) (row : Record) : String :=
  if keys.result = "" then ""
  else if pyUpper (pyStrip (getOr row keys.result "")) = "W" then "W"
  else if pyUpper (pyStrip (getOr row keys.result "")) = "L" then "L"
  else ""

/-- Append a row to its match group, keeping first-appearance order of the
group keys (OrderedDict setdefault, src lines 243-246 and 411-414). -/
def insertGrouped (acc : List (String × List Record)) (k : String) (row : Record) :
    List (String × List Record) :=
  match acc with
  | [] => [(k, [row])]
  | (k0, rs) :: rest =>
    if k0 = k then (k0, rs ++ [row]) :: rest else (k0, rs) :: insertGrouped rest k row

/-- Grouping of an event's rows into matches. -/
def groupRowsByMatch (keys : Keys) (rows : List Record) : List (String × List Record) :=
  rows.foldl (fun acc row => insertGrouped acc (matchNameOf keys row) row) []

/-- Number of W results inside one match (src lines 447-449). -/
def winnerCount (keys : Keys) (rows : List Record) : Nat :=
  rows.countP (fun row => decide (resultValueOf keys row = "W"))

/-- Per-match status (src lines 464-465). -/
def matchStatus (keys : Keys) (rows : List Record) : String :=
  if 1 ≤ winnerCount keys rows then "Final" else "Pending"

/-- total_matches (src line 416). -/
def totalMatches (keys : Keys) (eventRows : List Record) : Nat :=
  (groupRowsByMatch keys eventRows).length

/-- completed_matches accumulated over the match loop (src lines 466-467). -/
def completedMatches (keys : Keys) (eventRows : List Record) : Nat :=
  (groupRowsByMatch keys eventRows).countP (fun g => decide (1 ≤ winnerCount keys g.2))

/-- any_pending accumulated over the match loop (src lines 468-469). -/
def anyPendingMatch (keys : Keys) (eventRows : List Record) : Bool :=
  (groupRowsByMatch keys eventRows).any (fun g => decide (winnerCount keys g.2 = 0))

/-- Event-level status (src lines 489-494). -/
def liveStatus (keys : Keys) (eventRows : List Record) : String :=
  if completedMatches keys eventRows = 0 then "Pending"
  else if anyPendingMatch keys eventRows then "Live"
  else "Final"

/-- html.escape of one character (quote=True default). -/
def htmlEscapeChar (c : Char) : List Char :=
  if c = '&' then "&amp;".data
  else if c = '<' then "&lt;".data
  else if c = '>' then "&gt;".data
  else if c = Char.ofNat 34 then "&quot;".data
  else if c = Char.ofNat 39 then "&#x27;".data
  else [c]

/-- html.escape. -/
def htmlEscape (s : String) : String := String.mk ((s.data.map htmlEscapeChar).flatten)

/-- The live-status line rendered by build_live_html (src line 569). -/
def statusLine (keys : Keys) (eventRows : List Record) : String :=
  "<div class=\"live-status-line\"><strong>Status:</strong> " ++
    htmlEscape (liveStatus keys eventRows) ++
    " | <strong>Matches completed:</strong> " ++
    strNat (completedMatches keys eventRows) ++ " / " ++
    strNat (totalMatches keys eventRows) ++ "</div>"

/-- Value of a Python float text: exact decimal mantissa and power-of-ten
exponent for finite literals, or one of the special values. The model keeps
finite decimals exact; magnitudes beyond double range are not modelled. -/
inductive PyFloat where
  | finite (m : Int) (e : Int)
  | posInf
  | negInf
  | nan

deriving instance DecidableEq, Repr for PyFloat

/-- Digit or underscore, the characters a numeric token may contain. -/
def isDigitOrUnder (c : Char) : Bool := c.isDigit || c = '_'

/-- Number of real digits in a token (underscores excluded). -/
def groupDigitCount (tok : List Char) : Nat := (tok.filter Char.isDigit).length

/-- Optional digit token of a float literal: empty is allowed (value 0,
zero digits); otherwise the token must be a valid underscore-digit group. -/
def optUDigits (tok : List Char) : Option (Nat × Nat) :=
  match tok with
  | [] => some (0, 0)
  | _ => (parseUDigits tok).map (fun v => (v, groupDigitCount tok))

/-- Exponent of a float literal after the e: optional sign, digit group. -/
def parseExpAfterE (cs : List Char) : Option Int :=
  match cs with
  | [] => none
  | c :: rest =>
    if c = '+' then (parseUDigits rest).map Int.ofNat
    else if c = '-' then (parseUDigits rest).map (fun n => -(Int.ofNat n))
    else (parseUDigits cs).map Int.ofNat

/-- Finite float literal body (sign removed): integer part, optional
fractional part, optional exponent; at least one digit overall; returns
exact mantissa and decimal exponent. -/
def parseDecimalBody (body : List Char) : Option (Int × Int) :=
  match optUDigits (body.takeWhile isDigitOrUnder) with
  | none => none
  | some (iv, ic) =>
    match body.dropWhile isDigitOrUnder with
    | [] => if ic = 0 then none else some ((iv : Int), 0)
    | c :: rest2 =>
      if c = '.' then
        match optUDigits (rest2.takeWhile isDigitOrUnder) with
        | none => none
        | some (fv, fc) =>
          if ic = 0 ∧ fc = 0 then none
          else
            match rest2.dropWhile isDigitOrUnder with
            | [] => some (((iv * 10 ^ fc + fv : Nat) : Int), -(fc : Int))
            | e1 :: rest4 =>
              if e1 = 'e' ∨ e1 = 'E' then
                (parseExpAfterE rest4).map
                  (fun ev => (((iv * 10 ^ fc + fv : Nat) : Int), ev - (fc : Int)))
              else none
      else if c = 'e' ∨ c = 'E' then
        if ic = 0 then none
        else (parseExpAfterE rest2).map (fun ev => ((iv : Int), ev))
      else none

/-- Python float(str) over ASCII text: strip, optional sign, then either a
special value (inf, infinity, nan — case-insensitive) or a finite decimal
literal; None is ValueError. -/
def pyFloatOfChars (cs0 : List Char) : Option PyFloat :=
  match pyStripChars cs0 with
  | [] => none
  | c :: rest =>
    if (if c = '+' ∨ c = '-' then rest else c :: rest).map Char.toLower = "inf".data ∨
       (if c = '+' ∨ c = '-' then rest else c :: rest).map Char.toLower = "infinity".data then
      some (if c = '-' then PyFloat.negInf else PyFloat.posInf)
    else if (if c = '+' ∨ c = '-' then rest else c :: rest).map Char.toLower = "nan".data then
      some PyFloat.nan
    else
      (parseDecimalBody (if c = '+' ∨ c = '-' then rest else c :: rest)).map
        (fun p => PyFloat.finite ((if c = '-' then -1 else 1) * p.1) p.2)

/-- Truncation toward zero of m times ten to the e, as int() applies to a
finite float. -/
def truncDecimal (m e : Int) : Int :=
  if 0 ≤ e then m * 10 ^ e.toNat else Int.tdiv m (10 ^ (-e).toNat)

/-- The one uncatchable failure in the leaderboard loader: int() of an
infinite float raises OverflowError, which except ValueError does not
catch. -/
inductive PyRunError where
  | overflowError

deriving instance DecidableEq, Repr for PyRunError

/-- int(float(s)): ok none models a raised ValueError (float parse failure,
or int() applied to nan), which the caller catches; error models the
OverflowError int() raises on an infinite value. -/
def pyIntFloat (s : String) : Except PyRunError (Option Int) :=
  match pyFloatOfChars s.data with
  | none => .ok none
  | some (PyFloat.finite m e) => .ok (some (truncDecimal m e))
  | some PyFloat.nan => .ok none
  | some PyFloat.posInf => .error PyRunError.overflowError
  | some PyFloat.negInf => .error PyRunError.overflowError

/-- (row.get("Score") or row.get("Net") or "0").strip() or "0"
(src line 349). -/
def scoreFieldText (row : Record) : String :=
  if pyStrip (pyOrStr (pyGet row "Score") (pyOrStr (pyGet row "Net") "0")) = "" then "0"
  else pyStrip (pyOrStr (pyGet row "Score") (pyOrStr (pyGet row "Net") "0"))

/-- (row.get(k) or "0").strip() or "0" (src lines 354-366). -/
def numFieldText (row : Record) (k : String) : String :=
  if pyStrip (pyOrStr (pyGet row k) "0") = "" then "0"
  else pyStrip (pyOrStr (pyGet row k) "0")

/-- try: value = int(float(text)) except ValueError: value = 0, the numeric
cell parse of load_leaderboard_rows. -/
def parseLeaderboardNumber (text : String) : Except PyRunError Int :=
  match pyIntFloat text with
  | .error e => .error e
  | .ok none => .ok 0
  | .ok (some v) => .ok v

/-- One parsed leaderboard row (src lines 369-378). -/
structure LeaderboardRow where
  Player : String
  Score : Int
  PendingWager : Int
  MaxPossiblePoints : Int
  Wins : Int
  Losses : Int

deriving instance DecidableEq, Repr for LeaderboardRow

/-- One iteration of the load_leaderboard_rows row loop (src lines 344-378):
none when the row is dropped for an empty player name; the Score value is
clamped at 0 at ingestion. -/
def processLeaderboardRow (row : Record) : Except PyRunError (Option LeaderboardRow) :=
  if pyStrip (pyOrStr (pyGet row "Player") "") = "" then Except.ok none
  else do
    let score0 ← parseLeaderboardNumber (scoreFieldText row)
    let pendingWager ← parseLeaderboardNumber (numFieldText row "PendingWager")
    let maxPossiblePoints ← parseLeaderboardNumber (numFieldText row "MaxPossiblePoints")
    let wins ← parseLeaderboardNumber (numFieldText row "Wins")
    let losses ← parseLeaderboardNumber (numFieldText row "Losses")
    return some ⟨pyStrip (pyOrStr (pyGet row "Player") ""), max 0 score0, pendingWager,
      maxPossiblePoints, wins, losses⟩

/-- valid_rows as accumulated by the loop, in source order. -/
def keptRows (csvRows : List Record) : Except PyRunError (List LeaderboardRow) :=
  csvRows.foldlM (fun acc row => do
    match (← processLeaderboardRow row) with
    | none => return acc
    | some r => return acc ++ [r]) []

/-- Stable insertion of one element: x goes in front of the first element
it compares le to, hence in front of later-arriving ties. -/
def insertStable {A : Type} (le : A → A → Bool) (x : A) : List A → List A
  | [] => [x]
  | y :: ys => if le x y then x :: y :: ys else y :: insertStable le x ys

/-- Stable sort by the comparison le: the function every stable sort (in
particular Python's list.sort) computes for a total preorder. -/
def sortStable {A : Type} (le : A → A → Bool) : List A → List A
  | [] => []
  | x :: xs => insertStable le x (sortStable le xs)

/-- Comparison used for valid_rows.sort(key=Score, reverse=True). -/
def leaderboardLE (a b : LeaderboardRow) : Bool := decide (b.Score ≤ a.Score)

/-- Python list.sort is stable; with reverse=True it is the stable
descending sort by the key. -/
def sortLeaderboard (rows : List LeaderboardRow) : List LeaderboardRow :=
  sortStable leaderboardLE rows

/-- load_leaderboard_rows on the already-read CSV rows (src lines 343-380). -/
def load_leaderboard_rows (csvRows : List Record) : Except PyRunError (List LeaderboardRow) := do
  let rows ← keptRows csvRows
  return sortLeaderboard rows

/-- top_score = max((row["Score"] for row in leaderboard_rows), default=0)
(src line 497). -/
def topScore (rows : List LeaderboardRow) : Int :=
  match rows.map (fun r => r.Score) with
  | [] => 0
  | x :: xs => xs.foldl max x

/-- leader_class assignment (src line 507): marked iff the row's score
equals top_score. -/
def leaderMarked (rows : List LeaderboardRow) (r : LeaderboardRow) : Bool :=
  decide (r.Score = topScore rows)

/-- A calendar date as datetime stores it (time components are always zero
for the three formats used). -/
structure PyDate where
  y : Nat
  m : Nat
  d : Nat

deriving instance DecidableEq, Repr for PyDate

/-- Order-embedding of a date into a natural number: datetime comparison is
lexicographic on (year, month, day), and month and day are below 100. -/
def dateVal (dt : PyDate) : Nat := dt.y * 10000 + dt.m * 100 + dt.d

/-- datetime.min is year 1, January 1. -/
def datetimeMin : PyDate := ⟨1, 1, 1⟩

/-- Gregorian leap-year rule used by datetime. -/
def isLeapYear (y : Nat) : Bool := (y % 4 = 0 && y % 100 != 0) || y % 400 = 0

/-- Days in a month, as datetime validates them. -/
def daysInMonth (y m : Nat) : Nat :=
  if m = 2 then (if isLeapYear y then 29 else 28)
  else if m = 4 ∨ m = 6 ∨ m = 9 ∨ m = 11 then 30
  else 31

/-- datetime(year, month, day) construction: range validation; None is the
ValueError the date-parsing callers catch. -/
def mkValidDate (y m d : Nat) : Option PyDate :=
  if 1 ≤ y ∧ y ≤ 9999 ∧ 1 ≤ m ∧ m ≤ 12 ∧ 1 ≤ d ∧ d ≤ daysInMonth y m then
    some ⟨y, m, d⟩
  else none

/-- First candidate for which the continuation succeeds, in order — the
backtracking order of a regex alternation. -/
def firstSome {α β : Type} (l : List α) (f : α → Option β) : Option β :=
  match l with
  | [] => none
  | a :: rest =>
    match f a with
    | some b => some b
    | none => firstSome rest f

/-- Value of two digit characters. -/
def twoDigitVal (a b : Char) : Nat := dval a * 10 + dval b

/-- Matches of the strptime month field, two-digit alternative first:
the regex 1[0-2]|0[1-9]|[1-9]. -/
def monthCands : List Char → List (Nat × List Char)
  | a :: b :: rest =>
    (if a.isDigit && b.isDigit && decide (1 ≤ twoDigitVal a b) && decide (twoDigitVal a b ≤ 12)
     then [(twoDigitVal a b, rest)] else []) ++
    (if a.isDigit && decide (1 ≤ dval a) then [(dval a, b :: rest)] else [])
  | [a] => if a.isDigit && decide (1 ≤ dval a) then [(dval a, [])] else []
  | [] => []

/-- Matches of the strptime day field, two-digit alternative first:
the regex 3[01]|[12][0-9]|0[1-9]|[1-9]. -/
def dayCands : List Char → List (Nat × List Char)
  | a :: b :: rest =>
    (if a.isDigit && b.isDigit && decide (1 ≤ twoDigitVal a b) && decide (twoDigitVal a b ≤ 31)
     then [(twoDigitVal a b, rest)] else []) ++
    (if a.isDigit && decide (1 ≤ dval a) then [(dval a, b :: rest)] else [])
  | [a] => if a.isDigit && decide (1 ≤ dval a) then [(dval a, [])] else []
  | [] => []

/-- The strptime four-digit year field. -/
def year4 : List Char → Option (Nat × List Char)
  | a :: b :: c :: d :: rest =>
    if a.isDigit && b.isDigit && c.isDigit && d.isDigit then
      some (((dval a * 10 + dval b) * 10 + dval c) * 10 + dval d, rest)
    else none
  | _ => none

/-- The strptime two-digit year field. -/
def year2 : List Char → Option (Nat × List Char)
  | a :: b :: rest =>
    if a.isDigit && b.isDigit then some (twoDigitVal a b, rest) else none
  | _ => none

/-- strptime %y century rule: 00-68 map to 2000-2068, 69-99 to 1969-1999. -/
def expandYear2 (v : Nat) : Nat := if v ≤ 68 then 2000 + v else 1900 + v

/-- strptime(raw, m/d/Y): whole string must match, then date validation. -/
def parseMDY (cs : List Char) : Option PyDate :=
  firstSome (monthCands cs) (fun mc =>
    match mc.2 with
    | [] => none
    | c :: r2 =>
      if c = '/' then
        firstSome (dayCands r2) (fun dc =>
          match dc.2 with
          | [] => none
          | c2 :: r4 =>
            if c2 = '/' then
              match year4 r4 with
              | some (yv, []) => mkValidDate yv mc.1 dc.1
              | _ => none
            else none)
      else none)

/-- strptime(raw, m/d/y). -/
def parseMDy (cs : List Char) : Option PyDate :=
  firstSome (monthCands cs) (fun mc =>
    match mc.2 with
    | [] => none
    | c :: r2 =>
      if c = '/' then
        firstSome (dayCands r2) (fun dc =>
          match dc.2 with
          | [] => none
          | c2 :: r4 =>
            if c2 = '/' then
              match year2 r4 with
              | some (yv, []) => mkValidDate (expandYear2 yv) mc.1 dc.1
              | _ => none
            else none)
      else none)

/-- strptime(raw, Y-m-d). -/
def parseYMD (cs : List Char) : Option PyDate :=
  match year4 cs with
  | some (yv, c :: r2) =>
    if c = '-' then
      firstSome (monthCands r2) (fun mc =>
        match mc.2 with
        | [] => none
        | c2 :: r3 =>
          if c2 = '-' then
            firstSome (dayCands r3) (fun dc =>
              match dc.2 with
              | [] => mkValidDate yv mc.1 dc.1
              | _ => none)
          else none)
    else none
  | _ => none

/-- The three format attempts, in source order (src lines 205-213). -/
def tryParseDateFormats (cs : List Char) : Option PyDate :=
  match parseMDY cs with
  | some dt => some dt
  | none =>
    match parseMDy cs with
    | some dt => some dt
    | none => parseYMD cs

/-- parse_event_date_for_sort (src lines 205-213): unparseable text gets
datetime.min. -/
def parse_event_date_for_sort (s : String) : PyDate :=
  (tryParseDateFormats (pyStrip s).data).getD datetimeMin

/-- One index-page event summary (src lines 704-713). -/
structure EventSummary where
  event_id : String
  event_name : String
  date : String
  location : String
  file_name : String

deriving instance DecidableEq, Repr for EventSummary

/-- Comparison used by event_summaries.sort(key=date-sort-key,
reverse=True). -/
def summaryLE (a b : EventSummary) : Bool :=
  decide (dateVal (parse_event_date_for_sort b.date) ≤ dateVal (parse_event_date_for_sort a.date))

/-- The index ordering step (src lines 715-718): stable descending sort. -/
def sortEventSummaries (l : List EventSummary) : List EventSummary :=
  sortStable summaryLE l

/-- Fatal run-level errors of main before any page is produced
(src lines 641-674). -/
inductive MainError where
  | emptyCsv
  | missingCols (names : List String)
  | noEventIds

deriving instance DecidableEq, Repr for MainError

/-- File names written by the per-event loop (src lines 679-702), with the
empty-selection skip branch of src line 684. -/
def perEventFiles (rows : List Record) (key : String) (ids : List String) : List String :=
  ids.foldr (fun i acc =>
    if selectEventRows rows key i = [] then acc
    else ("event_" ++ sanitize_event_id i ++ ".html") ::
      ("live_" ++ sanitize_event_id i ++ ".html") :: acc) []

/-- The orchestration of main at the level of produced output files
(src lines 641-702 and 767): a fatal error produces no page at all. -/
def mainOutputs (rows : List Record) : Except MainError (List String) :=
  match rows with
  | [] => .error MainError.emptyCsv
  | first :: _ =>
    if missingColumns first ≠ [] then .error (MainError.missingCols (missingColumns first))
    else
      let ids := get_available_event_ids rows (resolveKeys first).event_id
      if ids = [] then .error MainError.noEventIds
      else .ok (perEventFiles rows (resolveKeys first).event_id ids ++ ["index.html"])

/-- Decimal fold over a list of digit characters. -/
def foldDigits (acc : Nat) (cs : List Char) : Nat :=
  cs.foldl (fun a c => a * 10 + dval c) acc

/-- No two adjacent underscores. -/
def noDoubleUnder : List Char → Bool
  | [] => true
  | [_] => true
  | a :: b :: rest => !(a == '_' && b == '_') && noDoubleUnder (b :: rest)

/-- Valid continuation of an int digit token after its first character:
only digits and underscores, no doubled underscore, and a digit at the end
when non-empty. -/
def contOk (cs : List Char) : Bool :=
  cs.all isDigitOrUnder && noDoubleUnder cs &&
    (match cs.getLast? with
     | none => true
     | some c => c.isDigit)

/-- A syntactically valid Python int digit token: non-empty, begins and
ends with a digit, only digits separated by single underscores. -/
def validDigitGroup (cs : List Char) : Bool :=
  match cs with
  | [] => false
  | c :: _ => c.isDigit && contOk cs

/-- Value of a digit token, underscores ignored. -/
def groupValue (cs : List Char) : Nat := foldDigits 0 (cs.filter Char.isDigit)

/-- Specification-level description of the odds parser: the spec's strict
signed base-10 grammar, broadened by the underscore digit-group separators
Python int() accepts. -/
def americanOddsSpec (s : String) : Option Int :=
  match (pyStrip s).data with
  | [] => none
  | c :: rest =>
    if c = '+' then (if validDigitGroup rest then some (Int.ofNat (groupValue rest)) else none)
    else if c = '-' then
      (if validDigitGroup rest then some (-(Int.ofNat (groupValue rest))) else none)
    else if validDigitGroup (c :: rest) then some (Int.ofNat (groupValue (c :: rest))) else none

theorem head?_dropWhile_false {α : Type} {p : α → Bool} :
    ∀ {l : List α} {a : α}, (l.dropWhile p).head? = some a → p a = false := by
  intro l
  induction l with
  | nil =>
    intro a h
    simp at h
  | cons x xs ih =>
    intro a h
    rw [List.dropWhile_cons] at h
    by_cases hp : p x = true
    · rw [if_pos hp] at h
      exact ih h
    · rw [if_neg hp] at h
      simp only [List.head?_cons, Option.some.injEq] at h
      subst h
      simp only [Bool.not_eq_true] at hp
      exact hp

theorem dropWhile_eq_self_of_head {α : Type} (p : α → Bool) (l : List α)
    (h : ∀ a, l.head? = some a → p a = false) : l.dropWhile p = l := by
  cases l with
  | nil => rfl
  | cons x xs =>
    have hx := h x rfl
    rw [List.dropWhile_cons, hx]
    simp

theorem dropWhile_eq_self_of_all {α : Type} (p : α → Bool) (l : List α)
    (h : ∀ a ∈ l, p a = false) : l.dropWhile p = l := by
  apply dropWhile_eq_self_of_head
  intro a ha
  exact h a (List.mem_of_mem_head? (Option.mem_def.mpr ha))

theorem pyStripChars_head_not_ws (cs : List Char) (a : Char)
    (h : (pyStripChars cs).head? = some a) : isPyWs a = false := by
  unfold pyStripChars at h
  rw [List.head?_reverse] at h
  obtain ⟨t, ht⟩ := @List.dropWhile_suffix Char ((cs.dropWhile isPyWs).reverse) isPyWs
  have h2 : ((cs.dropWhile isPyWs).reverse).getLast? = some a := by
    rw [← ht, List.getLast?_append, h, Option.or_some]
  rw [List.getLast?_reverse] at h2
  exact head?_dropWhile_false h2

theorem pyStripChars_idem (cs : List Char) : pyStripChars (pyStripChars cs) = pyStripChars cs := by
  have hR : (pyStripChars cs).dropWhile isPyWs = pyStripChars cs :=
    dropWhile_eq_self_of_head _ _ (fun a ha => pyStripChars_head_not_ws cs a ha)
  have hRrev : (pyStripChars cs).reverse = ((cs.dropWhile isPyWs).reverse).dropWhile isPyWs := by
    unfold pyStripChars
    rw [List.reverse_reverse]
  have hB : ((pyStripChars cs).reverse).dropWhile isPyWs = (pyStripChars cs).reverse := by
    rw [hRrev]
    apply dropWhile_eq_self_of_head
    intro a ha
    exact head?_dropWhile_false ha
  show ((((pyStripChars cs).dropWhile isPyWs).reverse).dropWhile isPyWs).reverse = pyStripChars cs
  rw [hR, hB, List.reverse_reverse]

theorem pyStrip_data (s : String) : (pyStrip s).data = pyStripChars s.data := rfl

theorem pyStrip_idem (s : String) : pyStrip (pyStrip s) = pyStrip s := by
  show String.mk (pyStripChars (pyStripChars s.data)) = pyStrip s
  rw [pyStripChars_idem]
  rfl

theorem pyStripChars_no_ws (cs : List Char) (h : ∀ c ∈ cs, isPyWs c = false) :
    pyStripChars cs = cs := by
  unfold pyStripChars
  rw [dropWhile_eq_self_of_all _ _ h]
  rw [dropWhile_eq_self_of_all]
  · exact List.reverse_reverse cs
  · intro a ha
    exact h a (List.mem_reverse.mp ha)

theorem stringMk_eq_empty (cs : List Char) : (String.mk cs = "") ↔ cs = [] := by
  constructor
  · intro h
    simpa using congrArg String.data h
  · intro h
    subst h
    rfl

theorem noDoubleUnder_cons (c : Char) (cs : List Char) (h : (c == '_') = false) :
    noDoubleUnder (c :: cs) = noDoubleUnder cs := by
  cases cs with
  | nil => rfl
  | cons b r =>
    show (!(c == '_' && b == '_') && noDoubleUnder (b :: r)) = noDoubleUnder (b :: r)
    rw [h]
    simp

theorem digit_ne_under (c : Char) (hd : c.isDigit = true) : (c == '_') = false := by
  by_cases h : c = '_'
  · subst h
    simp at hd
  · simp [h]

theorem noDoubleUnder_nil : noDoubleUnder [] = true := rfl

theorem noDoubleUnder_single (c : Char) : noDoubleUnder [c] = true := rfl

theorem digitsUCore_eq : ∀ (cs : List Char) (acc : Nat),
    digitsUCore acc cs =
      if contOk cs then some (foldDigits acc (cs.filter Char.isDigit)) else none := by
  intro cs
  induction cs with
  | nil =>
    intro acc
    simp [digitsUCore, contOk, foldDigits, noDoubleUnder_nil]
  | cons c cs ih =>
    intro acc
    by_cases hd : c.isDigit = true
    · have hne := digit_ne_under c hd
      cases cs with
      | nil =>
        simp [digitsUCore, hd, contOk, noDoubleUnder_single, noDoubleUnder_nil,
          isDigitOrUnder, foldDigits, List.filter_cons]
      | cons d r =>
        have hco : contOk (c :: d :: r) = contOk (d :: r) := by
          simp [contOk, isDigitOrUnder, hd, List.getLast?_cons_cons,
            noDoubleUnder_cons c (d :: r) hne]
        have h1 : digitsUCore acc (c :: d :: r) = digitsUCore (acc * 10 + dval c) (d :: r) := by
          simp [digitsUCore, hd]
        rw [h1, ih, hco]
        have hfil : List.filter Char.isDigit (c :: d :: r) =
            c :: List.filter Char.isDigit (d :: r) := by
          simp [List.filter_cons, hd]
        rw [hfil]
        by_cases hck : contOk (d :: r) = true
        · rw [if_pos hck, if_pos hck]
          rfl
        · rw [if_neg hck, if_neg hck]
    · by_cases hu : c = '_'
      · subst hu
        cases cs with
        | nil =>
          simp [digitsUCore, contOk]
        | cons d r =>
          by_cases hdd : d.isDigit = true
          · have hdu := digit_ne_under d hdd
            have hco : contOk ('_' :: d :: r) = contOk (d :: r) := by
              simp [contOk, isDigitOrUnder, hdd, List.getLast?_cons_cons, noDoubleUnder, hdu]
            have h1 : digitsUCore acc ('_' :: d :: r) = digitsUCore acc (d :: r) := by
              simp [digitsUCore, hdd]
            have hfil : List.filter Char.isDigit ('_' :: d :: r) =
                List.filter Char.isDigit (d :: r) := by
              simp [List.filter_cons]
            rw [h1, ih, hco, hfil]
          · have h1 : digitsUCore acc ('_' :: d :: r) = none := by
              simp [digitsUCore, hdd]
            rw [h1]
            by_cases hdu : d = '_'
            · subst hdu
              have : contOk ('_' :: '_' :: r) = false := by
                simp [contOk, noDoubleUnder]
              rw [this]
              simp
            · have : contOk ('_' :: d :: r) = false := by
                simp [contOk, isDigitOrUnder, hdd, hdu]
              rw [this]
              simp
      · have h1 : digitsUCore acc (c :: cs) = none := by
          simp [digitsUCore, hd, hu]
        have h2 : contOk (c :: cs) = false := by
          simp [contOk, isDigitOrUnder, hd, hu]
        rw [h1, h2]
        simp

theorem parseUDigits_eq (cs : List Char) :
    parseUDigits cs = if validDigitGroup cs then some (groupValue cs) else none := by
  cases cs with
  | nil => simp [parseUDigits, validDigitGroup]
  | cons c rest =>
    by_cases hd : c.isDigit = true
    · have h1 : parseUDigits (c :: rest) = digitsUCore 0 (c :: rest) := by
        simp [parseUDigits, hd]
      rw [h1, digitsUCore_eq]
      simp [validDigitGroup, hd, groupValue]
    · simp [parseUDigits, hd, validDigitGroup]

theorem signedToken_eq (c : Char) (rest : List Char) :
    (if c = '+' then (parseUDigits rest).map Int.ofNat
     else if c = '-' then (parseUDigits rest).map (fun n => -(Int.ofNat n))
     else (parseUDigits (c :: rest)).map Int.ofNat) =
    (if c = '+' then (if validDigitGroup rest then some (Int.ofNat (groupValue rest)) else none)
     else if c = '-' then
       (if validDigitGroup rest then some (-(Int.ofNat (groupValue rest))) else none)
     else if validDigitGroup (c :: rest) then some (Int.ofNat (groupValue (c :: rest)))
     else none) := by
  simp only [parseUDigits_eq]
  by_cases hplus : c = '+'
  · simp only [if_pos hplus]
    by_cases hv : validDigitGroup rest = true
    · simp [hv]
    · simp [hv]
  · simp only [if_neg hplus]
    by_cases hminus : c = '-'
    · simp only [if_pos hminus]
      by_cases hv : validDigitGroup rest = true
      · simp [hv]
      · simp [hv]
    · simp only [if_neg hminus]
      by_cases hv : validDigitGroup (c :: rest) = true
      · simp [hv]
      · simp [hv]

theorem parse_american_odds_eq_spec (s : String) :
    parse_american_odds s = americanOddsSpec s := by
  unfold parse_american_odds americanOddsSpec
  by_cases he : pyStrip s = ""
  · rw [if_pos he]
    have hd : (pyStrip s).data = [] := by
      rw [he]
    rw [hd]
  · rw [if_neg he]
    show pyIntOfChars (pyStrip s).data = _
    unfold pyIntOfChars
    rw [pyStrip_data, pyStripChars_idem]
    cases hcs : pyStripChars s.data with
    | nil =>
      exact absurd ((stringMk_eq_empty (pyStripChars s.data)).mpr hcs) he
    | cons c rest =>
      exact signedToken_eq c rest

/-- C3 (amended): the odds parser returns Unknown for empty or
whitespace-only input, and otherwise behaves exactly as the signed
base-10 grammar broadened by Python's underscore digit-group separators:
an optional sign followed by ASCII digit groups separated by single
underscores parses to its integer value, and every other ASCII string
returns Unknown without throwing. -/
theorem c3_odds_parse_characterization (s : String) :
    (pyStrip s = "" → parse_american_odds s = none) ∧
    parse_american_odds s = americanOddsSpec s := by
  constructor
  · intro he
    unfold parse_american_odds
    rw [if_pos he]
  · exact parse_american_odds_eq_spec s

/-- C3 counterexample: "1_0" contains an underscore separator, is not an
optional sign followed only by digits, yet the parser returns 10 rather
than Unknown — Python int() accepts underscore-separated digit groups. -/
theorem c3_underscore_counterexample :
    parse_american_odds "1_0" = some 10 ∧ ("1_0".data.contains '_') = true := by
  constructor
  · rfl
  · rfl

theorem c3_witness :
    parse_american_odds " " = none ∧ parse_american_odds " " = americanOddsSpec " " :=
  ⟨(c3_odds_parse_characterization " ").1 (by decide),
   (c3_odds_parse_characterization " ").2⟩

theorem digitChar_isDigit (d : Nat) (h : d < 10) : (Char.ofNat (48 + d)).isDigit = true := by
  interval_cases d <;> decide

theorem digitChar_not_ws (d : Nat) (h : d < 10) : isPyWs (Char.ofNat (48 + d)) = false := by
  interval_cases d <;> decide

theorem dval_digitChar (d : Nat) (h : d < 10) : dval (Char.ofNat (48 + d)) = d := by
  interval_cases d <;> decide

theorem natDecimalCharsAux_shape : ∀ (fuel n : Nat), n < fuel →
    ∀ c ∈ natDecimalCharsAux fuel n, ∃ d, d < 10 ∧ c = Char.ofNat (48 + d) := by
  intro fuel
  induction fuel with
  | zero =>
    intro n h
    omega
  | succ fuel ih =>
    intro n h c hc
    simp only [natDecimalCharsAux] at hc
    by_cases h10 : n < 10
    · rw [if_pos h10] at hc
      simp at hc
      subst hc
      exact ⟨n, h10, rfl⟩
    · rw [if_neg h10] at hc
      rcases List.mem_append.mp hc with h1 | h2
      · exact ih (n / 10) (by omega) c h1
      · simp at h2
        subst h2
        exact ⟨n % 10, by omega, rfl⟩

theorem natDecimalCharsAux_ne_nil (fuel n : Nat) (h : n < fuel) :
    natDecimalCharsAux fuel n ≠ [] := by
  cases fuel with
  | zero => omega
  | succ fuel =>
    simp only [natDecimalCharsAux]
    by_cases h10 : n < 10
    · rw [if_pos h10]
      simp
    · rw [if_neg h10]
      simp

theorem foldDigits_natDecimalCharsAux : ∀ (fuel n : Nat), n < fuel → ∀ acc,
    foldDigits acc (natDecimalCharsAux fuel n) =
      acc * 10 ^ (natDecimalCharsAux fuel n).length + n := by
  intro fuel
  induction fuel with
  | zero =>
    intro n h
    omega
  | succ fuel ih =>
    intro n h acc
    simp only [natDecimalCharsAux]
    by_cases h10 : n < 10
    · rw [if_pos h10]
      have hdv : dval (Char.ofNat (48 + n)) = n := dval_digitChar n h10
      show List.foldl (fun a c => a * 10 + dval c) acc [Char.ofNat (48 + n)] = _
      simp [List.foldl_cons, List.foldl_nil, hdv, pow_one]
    · rw [if_neg h10]
      have hrec := ih (n / 10) (by omega) acc
      unfold foldDigits at hrec
      show List.foldl (fun a c => a * 10 + dval c) acc
          (natDecimalCharsAux fuel (n / 10) ++ [Char.ofNat (48 + n % 10)]) = _
      rw [List.foldl_append]
      simp only [List.foldl_cons, List.foldl_nil]
      rw [hrec, dval_digitChar (n % 10) (by omega)]
      rw [List.length_append]
      simp only [List.length_singleton]
      rw [pow_succ, ← mul_assoc]
      generalize acc * 10 ^ (natDecimalCharsAux fuel (n / 10)).length = m
      omega

theorem natDecimalChars_shape (n : Nat) :
    ∀ c ∈ natDecimalChars n, ∃ d, d < 10 ∧ c = Char.ofNat (48 + d) :=
  natDecimalCharsAux_shape (n + 1) n (by omega)

theorem natDecimalChars_ne_nil (n : Nat) : natDecimalChars n ≠ [] :=
  natDecimalCharsAux_ne_nil (n + 1) n (by omega)

theorem natDecimalChars_digits (n : Nat) : ∀ c ∈ natDecimalChars n, c.isDigit = true := by
  intro c hc
  obtain ⟨d, hd, rfl⟩ := natDecimalChars_shape n c hc
  exact digitChar_isDigit d hd

theorem natDecimalChars_not_ws (n : Nat) : ∀ c ∈ natDecimalChars n, isPyWs c = false := by
  intro c hc
  obtain ⟨d, hd, rfl⟩ := natDecimalChars_shape n c hc
  exact digitChar_not_ws d hd

theorem groupValue_natDecimalChars (n : Nat) : groupValue (natDecimalChars n) = n := by
  unfold groupValue
  rw [List.filter_eq_self.mpr (natDecimalChars_digits n)]
  have h := foldDigits_natDecimalCharsAux (n + 1) n (by omega) 0
  show foldDigits 0 (natDecimalChars n) = n
  unfold natDecimalChars
  rw [h]
  simp

theorem noDoubleUnder_digits : ∀ (cs : List Char), (∀ c ∈ cs, c.isDigit = true) →
    noDoubleUnder cs = true := by
  intro cs
  induction cs with
  | nil =>
    intro _h
    rfl
  | cons a l ih =>
    intro h
    cases l with
    | nil => rfl
    | cons b r =>
      show (!(a == '_' && b == '_') && noDoubleUnder (b :: r)) = true
      have ha := digit_ne_under a (h a (by simp))
      rw [ha]
      simp only [Bool.false_and, Bool.not_false, Bool.true_and]
      exact ih (fun c hc => h c (List.mem_cons_of_mem a hc))

theorem contOk_digits (cs : List Char) (h : ∀ c ∈ cs, c.isDigit = true) :
    contOk cs = true := by
  unfold contOk
  have h1 : cs.all isDigitOrUnder = true := by
    rw [List.all_eq_true]
    intro c hc
    simp [isDigitOrUnder, h c hc]
  rw [h1, noDoubleUnder_digits cs h]
  cases hg : cs.getLast? with
  | none => rfl
  | some c =>
    have hcd := h c (List.mem_of_mem_getLast? (Option.mem_def.mpr hg))
    simp [hcd]

theorem validDigitGroup_natDecimalChars (n : Nat) :
    validDigitGroup (natDecimalChars n) = true := by
  have hd := natDecimalChars_digits n
  cases hcs : natDecimalChars n with
  | nil => exact absurd hcs (natDecimalChars_ne_nil n)
  | cons c rest =>
    rw [hcs] at hd
    show (c.isDigit && contOk (c :: rest)) = true
    rw [hd c (by simp), contOk_digits _ hd]
    rfl

theorem strip_sign_digits (c : Char) (hc : isPyWs c = false) (n : Nat) :
    pyStripChars (c :: natDecimalChars n) = c :: natDecimalChars n := by
  apply pyStripChars_no_ws
  intro x hx
  rcases List.mem_cons.mp hx with rfl | hmem
  · exact hc
  · exact natDecimalChars_not_ws n x hmem

theorem strip_digits (n : Nat) : pyStripChars (natDecimalChars n) = natDecimalChars n :=
  pyStripChars_no_ws _ (natDecimalChars_not_ws n)

theorem digit_ne_plus (c : Char) (h : c.isDigit = true) : ¬(c = '+') := by
  intro he
  subst he
  exact absurd h (by decide)

theorem digit_ne_minus (c : Char) (h : c.isDigit = true) : ¬(c = '-') := by
  intro he
  subst he
  exact absurd h (by decide)

theorem pyIntOfChars_digits (n : Nat) :
    pyIntOfChars (natDecimalChars n) = some (Int.ofNat n) := by
  unfold pyIntOfChars
  rw [strip_digits]
  cases hcs : natDecimalChars n with
  | nil => exact absurd hcs (natDecimalChars_ne_nil n)
  | cons c rest =>
    have hd : c.isDigit = true := by
      have h := natDecimalChars_digits n
      rw [hcs] at h
      exact h c (by simp)
    show (if c = '+' then (parseUDigits rest).map Int.ofNat
          else if c = '-' then (parseUDigits rest).map (fun k => -(Int.ofNat k))
          else (parseUDigits (c :: rest)).map Int.ofNat) = some (Int.ofNat n)
    rw [if_neg (digit_ne_plus c hd), if_neg (digit_ne_minus c hd), ← hcs,
      parseUDigits_eq, if_pos (validDigitGroup_natDecimalChars n),
      groupValue_natDecimalChars]
    rfl

theorem pyIntOfChars_plus_digits (n : Nat) :
    pyIntOfChars ('+' :: natDecimalChars n) = some (Int.ofNat n) := by
  unfold pyIntOfChars
  rw [strip_sign_digits '+' (by decide) n]
  show (if ('+' : Char) = '+' then (parseUDigits (natDecimalChars n)).map Int.ofNat
        else if ('+' : Char) = '-' then
          (parseUDigits (natDecimalChars n)).map (fun k => -(Int.ofNat k))
        else (parseUDigits ('+' :: natDecimalChars n)).map Int.ofNat) = some (Int.ofNat n)
  rw [if_pos rfl, parseUDigits_eq, if_pos (validDigitGroup_natDecimalChars n),
    groupValue_natDecimalChars]
  rfl

theorem pyIntOfChars_minus_digits (n : Nat) :
    pyIntOfChars ('-' :: natDecimalChars n) = some (-(Int.ofNat n)) := by
  unfold pyIntOfChars
  rw [strip_sign_digits '-' (by decide) n]
  show (if ('-' : Char) = '+' then (parseUDigits (natDecimalChars n)).map Int.ofNat
        else if ('-' : Char) = '-' then
          (parseUDigits (natDecimalChars n)).map (fun k => -(Int.ofNat k))
        else (parseUDigits ('-' :: natDecimalChars n)).map Int.ofNat) = some (-(Int.ofNat n))
  rw [if_neg (by decide), if_pos rfl, parseUDigits_eq,
    if_pos (validDigitGroup_natDecimalChars n), groupValue_natDecimalChars]
  rfl

theorem roundtrip_value (N : Int) :
    parse_american_odds (formatOddsValue (some N)) = some N := by
  have hfmt : formatOddsValue (some N) = if N > 0 then "+" ++ strInt N else strInt N := rfl
  rw [hfmt]
  by_cases hpos : N > 0
  · rw [if_pos hpos]
    have hneg : ¬N < 0 := by omega
    unfold strInt
    rw [if_neg hneg]
    have hdata : ("+" ++ strNat N.toNat).data = '+' :: natDecimalChars N.toNat := by
      rw [String.data_append]
      rfl
    have hstrip : pyStrip ("+" ++ strNat N.toNat) =
        String.mk ('+' :: natDecimalChars N.toNat) := by
      show String.mk (pyStripChars ("+" ++ strNat N.toNat).data) = _
      rw [hdata, strip_sign_digits '+' (by decide)]
    unfold parse_american_odds
    rw [hstrip, if_neg (by simp [stringMk_eq_empty])]
    show pyIntOfChars ('+' :: natDecimalChars N.toNat) = some N
    rw [pyIntOfChars_plus_digits]
    congr 1
    exact Int.toNat_of_nonneg (by omega)
  · rw [if_neg hpos]
    by_cases hz : N = 0
    · subst hz
      decide
    · have hneg : N < 0 := by omega
      unfold strInt
      rw [if_pos hneg]
      have hstrip : pyStrip (String.mk ('-' :: natDecimalChars N.natAbs)) =
          String.mk ('-' :: natDecimalChars N.natAbs) := by
        show String.mk (pyStripChars ('-' :: natDecimalChars N.natAbs)) = _
        rw [strip_sign_digits '-' (by decide)]
      unfold parse_american_odds
      rw [hstrip, if_neg (by simp [stringMk_eq_empty])]
      show pyIntOfChars ('-' :: natDecimalChars N.natAbs) = some N
      rw [pyIntOfChars_minus_digits]
      congr 1
      simp only [Int.ofNat_eq_natCast]
      omega

/-- C8: formatting an integer as odds display text and re-parsing it
recovers the integer, for every integer; the formatter renders "+150" for
150, "-200" for -200, "0" for 0, and the literal "TBD" for unknown (empty
or unparseable) odds. -/
theorem c8_odds_roundtrip :
    (∀ N : Int, parse_american_odds (formatOddsValue (some N)) = some N)
  ∧ format_odds "150" = "+150"
  ∧ format_odds "-200" = "-200"
  ∧ format_odds "0" = "0"
  ∧ format_odds "" = "TBD"
  ∧ (∀ s : String, parse_american_odds s = none → format_odds s = "TBD") := by
  refine ⟨roundtrip_value, by decide, by decide, by decide, by decide, ?_⟩
  intro s h
  unfold format_odds
  rw [h]
  rfl

theorem c8_witness :
    parse_american_odds (formatOddsValue (some 150)) = some 150 ∧
    parse_american_odds "zz" = none ∧ format_odds "zz" = "TBD" :=
  ⟨c8_odds_roundtrip.1 150, by decide, c8_odds_roundtrip.2.2.2.2.2 "zz" (by decide)⟩

theorem displayField_cases (v : Option String) (d : String) (hd : pyStrip d = d) :
    ((v = none ∨ v = some "") → pyStrip (pyOrStr v d) = d) ∧
    (∀ s, v = some s → s ≠ "" → pyStrip (pyOrStr v d) = pyStrip s) := by
  constructor
  · intro h
    rcases h with rfl | rfl
    · exact hd
    · show pyStrip (if ("" : String) = "" then d else "") = d
      rw [if_pos rfl]
      exact hd
  · intro s hs hne
    subst hs
    show pyStrip (if s = "" then d else s) = pyStrip s
    rw [if_neg hne]

/-- C1 (amended): the display-field placeholder is substituted before
trimming, so it applies exactly when the raw cell is missing or the empty
string; a non-empty raw cell — whitespace-only included — is only trimmed,
and a whitespace-only cell therefore yields the empty string, not the
placeholder. -/
theorem c1_display_default_before_trim (keys : Keys) (row : Record) :
    ((pyGet row keys.event = none ∨ pyGet row keys.event = some "") →
        rawEventNameOf keys row = "Unknown Event")
  ∧ (∀ s, pyGet row keys.event = some s → s ≠ "" → rawEventNameOf keys row = pyStrip s)
  ∧ ((pyGet row keys.matchname = none ∨ pyGet row keys.matchname = some "") →
        matchNameOf keys row = "Unknown Match")
  ∧ (∀ s, pyGet row keys.matchname = some s → s ≠ "" → matchNameOf keys row = pyStrip s)
  ∧ ((pyGet row keys.wrestler = none ∨ pyGet row keys.wrestler = some "") →
        wrestlerNameOf keys row = "Unknown Wrestler")
  ∧ (∀ s, pyGet row keys.wrestler = some s → s ≠ "" → wrestlerNameOf keys row = pyStrip s) :=
  ⟨(displayField_cases _ _ (by decide)).1, (displayField_cases _ _ (by decide)).2,
   (displayField_cases _ _ (by decide)).1, (displayField_cases _ _ (by decide)).2,
   (displayField_cases _ _ (by decide)).1, (displayField_cases _ _ (by decide)).2⟩

/-- C1 counterexample: a whitespace-only match cell trims to the empty
string and is not replaced by the "Unknown Match" placeholder, because the
source applies the default before trimming. -/
theorem c1_whitespace_counterexample :
    pyStrip " " = "" ∧
    matchNameOf ⟨"EventID", "Event", "Date", "StartTime", "Country", "Location", "Venue",
      "Match", "Wrestler", "CurrentChamp", "Odds", "Result"⟩ [("Match", " ")] = "" ∧
    matchNameOf ⟨"EventID", "Event", "Date", "StartTime", "Country", "Location", "Venue",
      "Match", "Wrestler", "CurrentChamp", "Odds", "Result"⟩ [("Match", " ")] ≠
      "Unknown Match" :=
  ⟨by decide, by decide, by decide⟩

theorem c1_witness :
    matchNameOf ⟨"EventID", "Event", "Date", "StartTime", "Country", "Location", "Venue",
      "Match", "Wrestler", "CurrentChamp", "Odds", "Result"⟩ [("Match", "")] =
      "Unknown Match" ∧
    matchNameOf ⟨"EventID", "Event", "Date", "StartTime", "Country", "Location", "Venue",
      "Match", "Wrestler", "CurrentChamp", "Odds", "Result"⟩ [("Match", " Main Event ")] =
      pyStrip " Main Event " :=
  ⟨(c1_display_default_before_trim _ _).2.2.1 (Or.inr (by decide)),
   (c1_display_default_before_trim _ _).2.2.2.1 " Main Event " (by decide) (by decide)⟩

/-- C2 (code behavior at the failing input): the Score text "inf" parses
as an infinite float, so int() raises OverflowError, which the loader's
except ValueError does not catch — the leaderboard load aborts instead of
defaulting to 0; ordinary unparseable text does default to 0 and finite
decimals truncate toward zero. -/
theorem c2_inf_score_overflow :
    parseLeaderboardNumber "inf" = Except.error PyRunError.overflowError ∧
    load_leaderboard_rows [[("Player", "A"), ("Score", "inf")]] =
      Except.error PyRunError.overflowError ∧
    parseLeaderboardNumber "abc" = Except.ok 0 ∧
    parseLeaderboardNumber "12.9" = Except.ok 12 ∧
    parseLeaderboardNumber "" = Except.ok 0 :=
  ⟨rfl, rfl, rfl, rfl, rfl⟩

/-- C10: the time formatter is total on every input whose first two
colon-separated parts parse as integers — it renders hour mod 12 with 0
mapped to 12, the zero-padded minute, am for hour below 12 and pm
otherwise, and " EST", even for out-of-range components, instead of
returning the raw input unchanged. -/
theorem c10_time_formatter_total (s : String) (hour24 minute : Int)
    (p0 p1 : List Char) (ps : List (List Char))
    (hsplit : splitChar ':' (pyStrip s).data = p0 :: p1 :: ps)
    (h0 : pyIntOfChars p0 = some hour24) (h1 : pyIntOfChars p1 = some minute) :
    format_start_time s =
      strInt (if hour24 % 12 = 0 then (12 : Int) else hour24 % 12) ++ ":" ++
        pad2Int minute ++ (if hour24 < 12 then "am" else "pm") ++ " EST" := by
  have hne : ¬pyStrip s = "" := by
    intro he
    have hd : (pyStrip s).data = [] := by
      rw [he]
    rw [hd] at hsplit
    simp [splitChar] at hsplit
  unfold format_start_time
  rw [if_neg hne]
  simp only [hsplit, h0, h1]

theorem c10_witness : format_start_time "25:00" = "1:00pm EST" := by
  have h := c10_time_formatter_total "25:00" 25 0 (['2', '5']) (['0', '0']) []
    (by decide) (by decide) (by decide)
  rw [h]
  decide

theorem pick_first_key_eq_empty (row : Record) :
    ∀ ks : List String, "" ∉ ks →
      (pick_first_key row ks = "" ↔ ∀ k ∈ ks, hasKey row k = false) := by
  intro ks
  induction ks with
  | nil =>
    intro _h
    simp [pick_first_key]
  | cons k rest ih =>
    intro hne
    have hk : ¬k = "" := by
      intro he
      subst he
      exact hne (List.mem_cons_self _ _)
    by_cases hh : hasKey row k = true
    · have hpk : pick_first_key row (k :: rest) = k := by
        show (if hasKey row k then k else pick_first_key row rest) = k
        rw [if_pos hh]
      constructor
      · intro hp
        rw [hpk] at hp
        exact absurd hp hk
      · intro hall
        have h1 := hall k (List.mem_cons_self _ _)
        rw [hh] at h1
        exact absurd h1 (by simp)
    · have hh2 : hasKey row k = false := by
        simpa using hh
      have hpk : pick_first_key row (k :: rest) = pick_first_key row rest := by
        show (if hasKey row k then k else pick_first_key row rest) = _
        rw [if_neg hh]
      rw [hpk, ih (fun hmem => hne (List.mem_cons_of_mem k hmem))]
      constructor
      · intro hall k2 hk2
        rcases List.mem_cons.mp hk2 with rfl | hmem
        · exact hh2
        · exact hall k2 hmem
      · intro hall k2 hmem
        exact hall k2 (List.mem_cons_of_mem k hmem)

theorem required_resolution (row : Record) (name : String) (h : name ∈ requiredKeyNames) :
    keyValue (resolveKeys row) name = pick_first_key row (synonymsOf name) ∧
    "" ∉ synonymsOf name := by
  simp only [requiredKeyNames, List.mem_cons, List.not_mem_nil, or_false] at h
  rcases h with rfl | rfl | rfl | rfl | rfl | rfl | rfl | rfl | rfl | rfl | rfl
  all_goals exact ⟨rfl, by decide⟩

/-- C5: a required semantic field is reported missing exactly when none of
its accepted header synonyms occurs in the first record's headers; the
report lists every such field, and when any is missing the whole run stops
with that report before producing any output file; in particular a header
set without "Odds" is rejected with "odds" in the reported list. -/
theorem c5_missing_columns (first : Record) (rest : List Record) :
    (∀ name, name ∈ missingColumns first ↔
        name ∈ requiredKeyNames ∧ ∀ syn ∈ synonymsOf name, hasKey first syn = false)
  ∧ (missingColumns first ≠ [] →
        mainOutputs (first :: rest) =
          Except.error (MainError.missingCols (missingColumns first)))
  ∧ (hasKey first "Odds" = false → "odds" ∈ missingColumns first) := by
  have hchar : ∀ name, name ∈ requiredKeyNames →
      (keyValue (resolveKeys first) name = "" ↔
        ∀ syn ∈ synonymsOf name, hasKey first syn = false) := by
    intro name hmem
    obtain ⟨heq, hnot⟩ := required_resolution first name hmem
    rw [heq]
    exact pick_first_key_eq_empty first _ hnot
  refine ⟨?_, ?_, ?_⟩
  · intro name
    constructor
    · intro hm
      have h2 := List.mem_filter.mp hm
      have hval : keyValue (resolveKeys first) name = "" := by
        simpa using h2.2
      exact ⟨h2.1, (hchar name h2.1).mp hval⟩
    · intro hand
      apply List.mem_filter.mpr
      exact ⟨hand.1, by simpa using (hchar name hand.1).mpr hand.2⟩
  · intro hne
    simp only [mainOutputs]
    rw [if_pos hne]
  · intro hodds
    apply List.mem_filter.mpr
    constructor
    · decide
    · have hval : keyValue (resolveKeys first) "odds" = "" := by
        show pick_first_key first ["Odds"] = ""
        show (if hasKey first "Odds" then "Odds" else pick_first_key first []) = ""
        rw [hodds]
        simp [pick_first_key]
      simpa using hval

theorem c5_witness :
    "odds" ∈ missingColumns [("EventID", "E1"), ("Event", "N"), ("Date", "d"),
      ("StartTime", "t"), ("Country", "c"), ("Location", "l"), ("Venue", "v"),
      ("Match", "m"), ("Wrestler", "w"), ("CurrentChamp", "y")] ∧
    mainOutputs ([("EventID", "E1"), ("Event", "N"), ("Date", "d"), ("StartTime", "t"),
      ("Country", "c"), ("Location", "l"), ("Venue", "v"), ("Match", "m"),
      ("Wrestler", "w"), ("CurrentChamp", "y")] :: []) =
      Except.error (MainError.missingCols ["odds"]) :=
  ⟨(c5_missing_columns [("EventID", "E1"), ("Event", "N"), ("Date", "d"),
      ("StartTime", "t"), ("Country", "c"), ("Location", "l"), ("Venue", "v"),
      ("Match", "m"), ("Wrestler", "w"), ("CurrentChamp", "y")] []).2.2 (by decide),
   (c5_missing_columns [("EventID", "E1"), ("Event", "N"), ("Date", "d"),
      ("StartTime", "t"), ("Country", "c"), ("Location", "l"), ("Venue", "v"),
      ("Match", "m"), ("Wrestler", "w"), ("CurrentChamp", "y")] []).2.1 (by decide)⟩

theorem mem_collectEventIds (key : String) :
    ∀ (rs : List Record) (acc : List String) (x : String),
      x ∈ rs.foldl (collectEventIds key) acc →
      x ∈ acc ∨ ∃ row ∈ rs, pyStrip (getOr row key "") = x ∧ ¬x = "" := by
  intro rs
  induction rs with
  | nil =>
    intro acc x h
    exact Or.inl h
  | cons r rest ih =>
    intro acc x h
    rw [List.foldl_cons] at h
    rcases ih _ x h with hacc | ⟨row, hrow, hs⟩
    · unfold collectEventIds at hacc
      by_cases h1 : pyStrip (getOr r key "") = ""
      · rw [if_pos h1] at hacc
        exact Or.inl hacc
      · rw [if_neg h1] at hacc
        by_cases h2 : acc.contains (pyStrip (getOr r key "")) = true
        · rw [if_pos h2] at hacc
          exact Or.inl hacc
        · rw [if_neg h2] at hacc
          rcases List.mem_append.mp hacc with h3 | h3
          · exact Or.inl h3
          · simp at h3
            subst h3
            exact Or.inr ⟨r, List.mem_cons_self r rest, rfl, h1⟩
    · exact Or.inr ⟨row, List.mem_cons_of_mem r hrow, hs⟩

theorem selectEventRows_mem (rows : List Record) (key id : String)
    (hid : id ∈ get_available_event_ids rows key) :
    selectEventRows rows key id ≠ [] := by
  rcases mem_collectEventIds key rows [] id hid with h | ⟨row, hrow, hstrip, _hne⟩
  · simp at h
  · have h2 : pyStrip id = id := by
      rw [← hstrip, pyStrip_idem]
    have hpred : normalizeText (getOr row key "") = normalizeText id := by
      unfold normalizeText
      rw [hstrip, h2]
    have hmem : row ∈ selectEventRows rows key id := by
      unfold selectEventRows
      apply List.mem_filter.mpr
      exact ⟨hrow, by simpa using hpred⟩
    exact List.ne_nil_of_mem hmem

theorem perEventFiles_no_skip (rows : List Record) (key : String) :
    ∀ ids : List String, (∀ i ∈ ids, selectEventRows rows key i ≠ []) →
      perEventFiles rows key ids =
        ids.foldr (fun i acc => ("event_" ++ sanitize_event_id i ++ ".html") ::
          ("live_" ++ sanitize_event_id i ++ ".html") :: acc) [] := by
  intro ids
  induction ids with
  | nil =>
    intro _h
    rfl
  | cons i rest ih =>
    intro h
    unfold perEventFiles
    rw [List.foldr_cons, List.foldr_cons]
    rw [if_neg (h i (List.mem_cons_self i rest))]
    have h2 := ih (fun j hj => h j (List.mem_cons_of_mem i hj))
    unfold perEventFiles at h2
    rw [h2]

/-- C9: in batch mode every available EventID (trimmed, non-empty,
first-occurrence order) selects at least one record under normalized
(trim plus lowercase) comparison, so the per-event loop's empty-selection
skip branch is unreachable: the produced per-event file list equals the
unconditional one. -/
theorem c9_batch_selection_never_misses (rows : List Record) (key : String) :
    (∀ id ∈ get_available_event_ids rows key, selectEventRows rows key id ≠ [])
  ∧ perEventFiles rows key (get_available_event_ids rows key) =
      (get_available_event_ids rows key).foldr
        (fun i acc => ("event_" ++ sanitize_event_id i ++ ".html") ::
          ("live_" ++ sanitize_event_id i ++ ".html") :: acc) [] := by
  constructor
  · intro id hid
    exact selectEventRows_mem rows key id hid
  · exact perEventFiles_no_skip rows key _ (fun i hi => selectEventRows_mem rows key i hi)

theorem c9_witness :
    selectEventRows [[("EventID", "E1")]] "EventID" "E1" ≠ [] ∧
    perEventFiles [[("EventID", "E1")]] "EventID"
        (get_available_event_ids [[("EventID", "E1")]] "EventID") =
      (get_available_event_ids [[("EventID", "E1")]] "EventID").foldr
        (fun i acc => ("event_" ++ sanitize_event_id i ++ ".html") ::
          ("live_" ++ sanitize_event_id i ++ ".html") :: acc) [] :=
  ⟨(c9_batch_selection_never_misses [[("EventID", "E1")]] "EventID").1 "E1" (by decide),
   (c9_batch_selection_never_misses [[("EventID", "E1")]] "EventID").2⟩

theorem winnerCount_pos_iff (keys : Keys) (rows : List Record) :
    1 ≤ winnerCount keys rows ↔ ∃ row ∈ rows, resultValueOf keys row = "W" := by
  unfold winnerCount
  constructor
  · intro h
    obtain ⟨a, ha, hp⟩ := List.countP_pos_iff.mp h
    exact ⟨a, ha, by simpa using hp⟩
  · intro hex
    obtain ⟨a, ha, hp⟩ := hex
    exact List.countP_pos_iff.mpr ⟨a, ha, by simpa using hp⟩

theorem anyPending_iff_not_all (keys : Keys) (eventRows : List Record) :
    anyPendingMatch keys eventRows = false ↔
      completedMatches keys eventRows = totalMatches keys eventRows := by
  unfold anyPendingMatch completedMatches totalMatches
  constructor
  · intro h
    apply List.countP_eq_length.mpr
    intro g hg
    have h2 := (List.any_eq_false.mp h) g hg
    simp only [decide_eq_true_eq] at h2
    simpa using Nat.one_le_iff_ne_zero.mpr h2
  · intro h
    apply List.any_eq_false.mpr
    intro g hg
    have h2 := List.countP_eq_length.mp h g hg
    simp only [decide_eq_true_eq] at h2
    simp only [decide_eq_true_eq]
    omega

/-- C4: a match is "Final" exactly when one of its wrestler entries carries
the Win result flag, and "Pending" otherwise; the event status is
"Pending" when no match is completed, "Final" when every match is
completed, and "Live" otherwise; and the live status line reports the
completed and total match counts. -/
theorem c4_status_engine (keys : Keys) (eventRows : List Record) :
    (∀ g ∈ groupRowsByMatch keys eventRows,
        matchStatus keys g.2 =
          if ∃ row ∈ g.2, resultValueOf keys row = "W" then "Final" else "Pending")
  ∧ liveStatus keys eventRows =
      (if completedMatches keys eventRows = 0 then "Pending"
       else if completedMatches keys eventRows = totalMatches keys eventRows then "Final"
       else "Live")
  ∧ statusLine keys eventRows =
      "<div class=\"live-status-line\"><strong>Status:</strong> " ++
        (if completedMatches keys eventRows = 0 then "Pending"
         else if completedMatches keys eventRows = totalMatches keys eventRows then "Final"
         else "Live") ++
        " | <strong>Matches completed:</strong> " ++
        strNat (completedMatches keys eventRows) ++ " / " ++
        strNat (totalMatches keys eventRows) ++ "</div>" := by
  have hlive : liveStatus keys eventRows =
      (if completedMatches keys eventRows = 0 then "Pending"
       else if completedMatches keys eventRows = totalMatches keys eventRows then "Final"
       else "Live") := by
    unfold liveStatus
    by_cases h0 : completedMatches keys eventRows = 0
    · rw [if_pos h0, if_pos h0]
    · rw [if_neg h0, if_neg h0]
      by_cases heq : completedMatches keys eventRows = totalMatches keys eventRows
      · rw [if_pos heq, (anyPending_iff_not_all keys eventRows).mpr heq]
        simp
      · rw [if_neg heq]
        have hap : anyPendingMatch keys eventRows = true := by
          cases hc : anyPendingMatch keys eventRows
          · exact absurd ((anyPending_iff_not_all keys eventRows).mp hc) heq
          · rfl
        rw [hap]
        simp
  refine ⟨?_, hlive, ?_⟩
  · intro g hg
    unfold matchStatus
    by_cases hex : ∃ row ∈ g.2, resultValueOf keys row = "W"
    · rw [if_pos ((winnerCount_pos_iff keys g.2).mpr hex), if_pos hex]
    · rw [if_neg (fun hc => hex ((winnerCount_pos_iff keys g.2).mp hc)), if_neg hex]
  · have hesc : htmlEscape
        (if completedMatches keys eventRows = 0 then "Pending"
         else if completedMatches keys eventRows = totalMatches keys eventRows then "Final"
         else "Live") =
        (if completedMatches keys eventRows = 0 then "Pending"
         else if completedMatches keys eventRows = totalMatches keys eventRows then "Final"
         else "Live") := by
      by_cases h0 : completedMatches keys eventRows = 0
      · simp only [if_pos h0]
        decide
      · simp only [if_neg h0]
        by_cases heq : completedMatches keys eventRows = totalMatches keys eventRows
        · simp only [if_pos heq]
          decide
        · simp only [if_neg heq]
          decide
    unfold statusLine
    rw [hlive, hesc]

theorem c4_witness :
    matchStatus ⟨"EventID", "Event", "Date", "StartTime", "Country", "Location", "Venue",
        "Match", "Wrestler", "CurrentChamp", "Odds", "Result"⟩
        [[("Match", "M1"), ("Result", "w")]] =
      (if ∃ row ∈ [[("Match", "M1"), ("Result", "w")]],
          resultValueOf ⟨"EventID", "Event", "Date", "StartTime", "Country", "Location",
            "Venue", "Match", "Wrestler", "CurrentChamp", "Odds", "Result"⟩ row = "W"
        then "Final" else "Pending") ∧
    liveStatus ⟨"EventID", "Event", "Date", "StartTime", "Country", "Location", "Venue",
        "Match", "Wrestler", "CurrentChamp", "Odds", "Result"⟩
        [[("Match", "M1"), ("Result", "w")], [("Match", "M2")]] =
      (if completedMatches ⟨"EventID", "Event", "Date", "StartTime", "Country", "Location",
          "Venue", "Match", "Wrestler", "CurrentChamp", "Odds", "Result"⟩
          [[("Match", "M1"), ("Result", "w")], [("Match", "M2")]] = 0 then "Pending"
       else if completedMatches ⟨"EventID", "Event", "Date", "StartTime", "Country",
          "Location", "Venue", "Match", "Wrestler", "CurrentChamp", "Odds", "Result"⟩
          [[("Match", "M1"), ("Result", "w")], [("Match", "M2")]] =
          totalMatches ⟨"EventID", "Event", "Date", "StartTime", "Country", "Location",
            "Venue", "Match", "Wrestler", "CurrentChamp", "Odds", "Result"⟩
            [[("Match", "M1"), ("Result", "w")], [("Match", "M2")]] then "Final"
       else "Live") :=
  ⟨(c4_status_engine ⟨"EventID", "Event", "Date", "StartTime", "Country", "Location",
      "Venue", "Match", "Wrestler", "CurrentChamp", "Odds", "Result"⟩
      [[("Match", "M1"), ("Result", "w")], [("Match", "M2")]]).1
      ("M1", [[("Match", "M1"), ("Result", "w")]]) (by decide),
   (c4_status_engine ⟨"EventID", "Event", "Date", "StartTime", "Country", "Location",
      "Venue", "Match", "Wrestler", "CurrentChamp", "Odds", "Result"⟩
      [[("Match", "M1"), ("Result", "w")], [("Match", "M2")]]).2.1⟩

theorem exbind_ok {E A B : Type} (a : A) (f : A → Except E B) : (Except.ok a >>= f) = f a := rfl

theorem exbind_err {E A B : Type} (e : E) (f : A → Except E B) :
    ((Except.error e : Except E A) >>= f) = Except.error e := rfl

theorem insertStable_perm {A : Type} (le : A → A → Bool) (x : A) :
    ∀ l : List A, (insertStable le x l).Perm (x :: l) := by
  intro l
  induction l with
  | nil => exact List.Perm.refl _
  | cons y ys ih =>
    show (if le x y then x :: y :: ys else y :: insertStable le x ys).Perm (x :: y :: ys)
    by_cases h : le x y = true
    · rw [if_pos h]
    · rw [if_neg h]
      exact (ih.cons y).trans (List.Perm.swap x y ys)

theorem sortStable_perm {A : Type} (le : A → A → Bool) :
    ∀ l : List A, (sortStable le l).Perm l := by
  intro l
  induction l with
  | nil => exact List.Perm.refl _
  | cons x xs ih =>
    show (insertStable le x (sortStable le xs)).Perm (x :: xs)
    exact (insertStable_perm le x _).trans (ih.cons x)

theorem insertStable_pairwise {A : Type} (le : A → A → Bool)
    (htrans : ∀ a b c, le a b = true → le b c = true → le a c = true)
    (htot : ∀ a b, le a b = false → le b a = true) (x : A) :
    ∀ l : List A, List.Pairwise (fun a b => le a b = true) l →
      List.Pairwise (fun a b => le a b = true) (insertStable le x l) := by
  intro l
  induction l with
  | nil =>
    intro _h
    simp [insertStable]
  | cons y ys ih =>
    intro hp
    obtain ⟨hhead, htail⟩ := List.pairwise_cons.mp hp
    show List.Pairwise _ (if le x y then x :: y :: ys else y :: insertStable le x ys)
    by_cases h : le x y = true
    · rw [if_pos h]
      apply List.pairwise_cons.mpr
      constructor
      · intro b hb
        rcases List.mem_cons.mp hb with rfl | hmem
        · exact h
        · exact htrans x y b h (hhead b hmem)
      · exact hp
    · rw [if_neg h]
      apply List.pairwise_cons.mpr
      constructor
      · intro b hb
        have hb2 := ((insertStable_perm le x ys).mem_iff).mp hb
        rcases List.mem_cons.mp hb2 with hbx | hmem
        · rw [hbx]
          exact htot x y (by simpa using h)
        · exact hhead b hmem
      · exact ih htail

theorem sortStable_pairwise {A : Type} (le : A → A → Bool)
    (htrans : ∀ a b c, le a b = true → le b c = true → le a c = true)
    (htot : ∀ a b, le a b = false → le b a = true) :
    ∀ l : List A, List.Pairwise (fun a b => le a b = true) (sortStable le l) := by
  intro l
  induction l with
  | nil => simp [sortStable]
  | cons x xs ih => exact insertStable_pairwise le htrans htot x _ ih

theorem insertStable_filter {A : Type} (le : A → A → Bool) (p : A → Bool)
    (hp : ∀ a b, p a = true → p b = true → le a b = true) (x : A) :
    ∀ l : List A, (insertStable le x l).filter p = ((x :: l).filter p) := by
  intro l
  induction l with
  | nil => rfl
  | cons y ys ih =>
    show (if le x y then x :: y :: ys else y :: insertStable le x ys).filter p = _
    by_cases h : le x y = true
    · rw [if_pos h]
    · rw [if_neg h]
      by_cases hpx : p x = true
      · by_cases hpy : p y = true
        · exact absurd (hp x y hpx hpy) h
        · have hpy2 : p y = false := by simpa using hpy
          simp [List.filter_cons, hpx, hpy2, ih]
      · have hpx2 : p x = false := by simpa using hpx
        simp [List.filter_cons, hpx2, ih]

theorem sortStable_filter {A : Type} (le : A → A → Bool) (p : A → Bool)
    (hp : ∀ a b, p a = true → p b = true → le a b = true) :
    ∀ l : List A, (sortStable le l).filter p = l.filter p := by
  intro l
  induction l with
  | nil => rfl
  | cons x xs ih =>
    show (insertStable le x (sortStable le xs)).filter p = _
    rw [insertStable_filter le p hp x _, List.filter_cons, List.filter_cons, ih]

theorem firstSome_eq_some {α β : Type} {f : α → Option β} {b : β} :
    ∀ {l : List α}, firstSome l f = some b → ∃ a ∈ l, f a = some b := by
  intro l
  induction l with
  | nil =>
    intro h
    simp [firstSome] at h
  | cons a rest ih =>
    intro h
    unfold firstSome at h
    cases hfa : f a with
    | some v =>
      rw [hfa] at h
      simp at h
      subst h
      exact ⟨a, List.mem_cons_self a rest, hfa⟩
    | none =>
      rw [hfa] at h
      obtain ⟨a2, ha2, hf2⟩ := ih h
      exact ⟨a2, List.mem_cons_of_mem a ha2, hf2⟩

theorem mkValidDate_bounds {y m d : Nat} {dt : PyDate}
    (h : mkValidDate y m d = some dt) : 1 ≤ dt.y ∧ 1 ≤ dt.m ∧ 1 ≤ dt.d := by
  unfold mkValidDate at h
  split at h
  · rename_i hcond
    injection h with h2
    subst h2
    exact ⟨hcond.1, hcond.2.2.1, hcond.2.2.2.2.1⟩
  · exact absurd h (by simp)

theorem parseMDY_bounds {cs : List Char} {dt : PyDate} (h : parseMDY cs = some dt) :
    1 ≤ dt.y ∧ 1 ≤ dt.m ∧ 1 ≤ dt.d := by
  unfold parseMDY at h
  obtain ⟨mc, _h1, h2⟩ := firstSome_eq_some h
  split at h2
  · exact absurd h2 (by simp)
  · split at h2
    · obtain ⟨dc, _h3, h4⟩ := firstSome_eq_some h2
      split at h4
      · exact absurd h4 (by simp)
      · split at h4
        · split at h4
          · exact mkValidDate_bounds h4
          · exact absurd h4 (by simp)
        · exact absurd h4 (by simp)
    · exact absurd h2 (by simp)

theorem parseMDy_bounds {cs : List Char} {dt : PyDate} (h : parseMDy cs = some dt) :
    1 ≤ dt.y ∧ 1 ≤ dt.m ∧ 1 ≤ dt.d := by
  unfold parseMDy at h
  obtain ⟨mc, _h1, h2⟩ := firstSome_eq_some h
  split at h2
  · exact absurd h2 (by simp)
  · split at h2
    · obtain ⟨dc, _h3, h4⟩ := firstSome_eq_some h2
      split at h4
      · exact absurd h4 (by simp)
      · split at h4
        · split at h4
          · exact mkValidDate_bounds h4
          · exact absurd h4 (by simp)
        · exact absurd h4 (by simp)
    · exact absurd h2 (by simp)

theorem parseYMD_bounds {cs : List Char} {dt : PyDate} (h : parseYMD cs = some dt) :
    1 ≤ dt.y ∧ 1 ≤ dt.m ∧ 1 ≤ dt.d := by
  unfold parseYMD at h
  split at h
  · split at h
    · obtain ⟨mc, _h1, h2⟩ := firstSome_eq_some h
      split at h2
      · exact absurd h2 (by simp)
      · split at h2
        · obtain ⟨dc, _h3, h4⟩ := firstSome_eq_some h2
          split at h4
          · exact mkValidDate_bounds h4
          · exact absurd h4 (by simp)
        · exact absurd h2 (by simp)
    · exact absurd h (by simp)
  · exact absurd h (by simp)

theorem tryParse_bounds {cs : List Char} {dt : PyDate}
    (h : tryParseDateFormats cs = some dt) : 1 ≤ dt.y ∧ 1 ≤ dt.m ∧ 1 ≤ dt.d := by
  unfold tryParseDateFormats at h
  cases h1 : parseMDY cs with
  | some d1 =>
    rw [h1] at h
    simp at h
    subst h
    exact parseMDY_bounds h1
  | none =>
    rw [h1] at h
    simp at h
    cases h2 : parseMDy cs with
    | some d2 =>
      rw [h2] at h
      simp at h
      subst h
      exact parseMDy_bounds h2
    | none =>
      rw [h2] at h
      simp at h
      exact parseYMD_bounds h

theorem dateVal_min_le (s : String) :
    dateVal datetimeMin ≤ dateVal (parse_event_date_for_sort s) := by
  unfold parse_event_date_for_sort
  cases h : tryParseDateFormats (pyStrip s).data with
  | none => simp
  | some dt =>
    simp only [Option.getD_some]
    obtain ⟨h1, h2, h3⟩ := tryParse_bounds h
    show 1 * 10000 + 1 * 100 + 1 ≤ dt.y * 10000 + dt.m * 100 + dt.d
    omega

/-- C6: the index lists the event summaries sorted by the date sort key,
most recent first (the output is a permutation of the input, pairwise
non-increasing on the key); date text that parses under none of the three
formats receives datetime.min, the least key, so from any unparseable
entry onward every position of the newest-first ordering carries the
minimum key — the oldest (last) positions. -/
theorem c6_index_sorted_newest_first (summaries : List EventSummary) :
    List.Pairwise (fun a b => dateVal (parse_event_date_for_sort b.date) ≤
        dateVal (parse_event_date_for_sort a.date)) (sortEventSummaries summaries)
  ∧ (sortEventSummaries summaries).Perm summaries
  ∧ (∀ s : EventSummary, tryParseDateFormats (pyStrip s.date).data = none →
        parse_event_date_for_sort s.date = datetimeMin)
  ∧ (∀ i j : Fin (sortEventSummaries summaries).length, i ≤ j →
        tryParseDateFormats (pyStrip ((sortEventSummaries summaries).get i).date).data =
          none →
        dateVal (parse_event_date_for_sort ((sortEventSummaries summaries).get j).date) =
          dateVal datetimeMin) := by
  have htrans : ∀ a b c : EventSummary, summaryLE a b = true → summaryLE b c = true →
      summaryLE a c = true := by
    intro a b c h1 h2
    simp only [summaryLE, decide_eq_true_eq] at h1 h2 ⊢
    omega
  have htot : ∀ a b : EventSummary, summaryLE a b = false → summaryLE b a = true := by
    intro a b h
    simp only [summaryLE, decide_eq_false_iff_not] at h
    simp only [summaryLE, decide_eq_true_eq]
    omega
  have hsorted : List.Pairwise (fun a b => dateVal (parse_event_date_for_sort b.date) ≤
      dateVal (parse_event_date_for_sort a.date)) (sortEventSummaries summaries) := by
    apply List.Pairwise.imp ?_ (sortStable_pairwise summaryLE htrans htot summaries)
    intro a b hab
    simpa [summaryLE] using hab
  have hmin : ∀ s : EventSummary, tryParseDateFormats (pyStrip s.date).data = none →
      parse_event_date_for_sort s.date = datetimeMin := by
    intro s hs
    unfold parse_event_date_for_sort
    rw [hs]
    rfl
  refine ⟨hsorted, sortStable_perm summaryLE summaries, hmin, ?_⟩
  intro i j hij hnone
  have hii : dateVal (parse_event_date_for_sort
      ((sortEventSummaries summaries).get i).date) = dateVal datetimeMin := by
    rw [hmin _ hnone]
  by_cases heq : i = j
  · subst heq
    exact hii
  · have hlt : i < j := lt_of_le_of_ne hij heq
    have hle := List.pairwise_iff_get.mp hsorted i j hlt
    have hge := dateVal_min_le ((sortEventSummaries summaries).get j).date
    omega

theorem c6_witness :
    dateVal (parse_event_date_for_sort
        ((sortEventSummaries [⟨"a", "A", "bogus", "L", "f"⟩,
            ⟨"b", "B", "2/28/2026", "L", "g"⟩]).get ⟨1, by decide⟩).date) =
      dateVal datetimeMin ∧
    parse_event_date_for_sort "bogus" = datetimeMin :=
  ⟨(c6_index_sorted_newest_first [⟨"a", "A", "bogus", "L", "f"⟩,
        ⟨"b", "B", "2/28/2026", "L", "g"⟩]).2.2.2 ⟨1, by decide⟩ ⟨1, by decide⟩
      (by decide) (by decide),
   (c6_index_sorted_newest_first [⟨"a", "A", "bogus", "L", "f"⟩,
        ⟨"b", "B", "2/28/2026", "L", "g"⟩]).2.2.1 ⟨"a", "A", "bogus", "L", "f"⟩ (by decide)⟩

theorem foldl_max_le (x : Int) : ∀ xs : List Int,
    x ≤ xs.foldl max x ∧ ∀ y ∈ xs, y ≤ xs.foldl max x := by
  intro xs
  induction xs generalizing x with
  | nil => exact ⟨le_refl x, by simp⟩
  | cons a as ih =>
    have h1 := ih (max x a)
    constructor
    · exact le_trans (le_max_left x a) h1.1
    · intro y hy
      rcases List.mem_cons.mp hy with hya | hmem
      · rw [hya]
        exact le_trans (le_max_right x a) h1.1
      · exact h1.2 y hmem

theorem foldl_max_mem (x : Int) : ∀ xs : List Int,
    xs.foldl max x = x ∨ xs.foldl max x ∈ xs := by
  intro xs
  induction xs generalizing x with
  | nil => exact Or.inl rfl
  | cons a as ih =>
    rcases ih (max x a) with h | h
    · rcases max_choice x a with hc | hc
      · left
        show List.foldl max (max x a) as = x
        rw [h, hc]
      · right
        show List.foldl max (max x a) as ∈ a :: as
        rw [h, hc]
        exact List.mem_cons_self a as
    · right
      exact List.mem_cons_of_mem a h

theorem topScore_spec (rows : List LeaderboardRow) (r : LeaderboardRow) (hr : r ∈ rows) :
    r.Score = topScore rows ↔ ∀ q ∈ rows, q.Score ≤ r.Score := by
  cases rows with
  | nil => exact absurd hr (List.not_mem_nil r)
  | cons r0 rest =>
    show r.Score = List.foldl max r0.Score (rest.map (fun q => q.Score)) ↔ _
    have hmax := foldl_max_le r0.Score (rest.map (fun q => q.Score))
    have hmem := foldl_max_mem r0.Score (rest.map (fun q => q.Score))
    constructor
    · intro he q hq
      rcases List.mem_cons.mp hq with hq0 | hq2
      · rw [he, hq0]
        exact hmax.1
      · rw [he]
        exact hmax.2 q.Score (List.mem_map.mpr ⟨q, hq2, rfl⟩)
    · intro hall
      have hub : r.Score ≤ List.foldl max r0.Score (rest.map (fun q => q.Score)) := by
        rcases List.mem_cons.mp hr with hr0 | hr2
        · rw [hr0]
          exact hmax.1
        · exact hmax.2 r.Score (List.mem_map.mpr ⟨r, hr2, rfl⟩)
      have hlb : List.foldl max r0.Score (rest.map (fun q => q.Score)) ≤ r.Score := by
        rcases hmem with h | h
        · rw [h]
          exact hall r0 (List.mem_cons_self _ _)
        · obtain ⟨q, hq, hqe⟩ := List.mem_map.mp h
          rw [← hqe]
          exact hall q (List.mem_cons_of_mem r0 hq)
      omega

theorem processRow_score_zero : ∀ (row : Record) (r : LeaderboardRow),
    processLeaderboardRow row = Except.ok (some r) →
    pyIntFloat (scoreFieldText row) = Except.ok none → r.Score = 0 := by
  intro row r hpr hvf
  have hscore : parseLeaderboardNumber (scoreFieldText row) = Except.ok 0 := by
    unfold parseLeaderboardNumber
    rw [hvf]
  unfold processLeaderboardRow at hpr
  split at hpr
  · exact absurd hpr (by simp)
  · rw [hscore, exbind_ok] at hpr
    cases hpw : parseLeaderboardNumber (numFieldText row "PendingWager") with
    | error e =>
      rw [hpw, exbind_err] at hpr
      exact absurd hpr (by simp)
    | ok pw =>
      rw [hpw, exbind_ok] at hpr
      cases hmp : parseLeaderboardNumber (numFieldText row "MaxPossiblePoints") with
      | error e =>
        rw [hmp, exbind_err] at hpr
        exact absurd hpr (by simp)
      | ok mp =>
        rw [hmp, exbind_ok] at hpr
        cases hw : parseLeaderboardNumber (numFieldText row "Wins") with
        | error e =>
          rw [hw, exbind_err] at hpr
          exact absurd hpr (by simp)
        | ok w =>
          rw [hw, exbind_ok] at hpr
          cases hl : parseLeaderboardNumber (numFieldText row "Losses") with
          | error e =>
            rw [hl, exbind_err] at hpr
            exact absurd hpr (by simp)
          | ok l =>
            rw [hl, exbind_ok] at hpr
            cases r with
            | mk P S PW MP W L =>
              simp [pure, Except.pure, LeaderboardRow.mk.injEq] at hpr
              show S = 0
              omega

/-- C7: a successful leaderboard load yields the kept rows (non-empty
player name, clamped score) sorted by score descending; the output is a
permutation of the kept rows and, for every score value, lists the rows of
that score in their original relative order (stability); a row whose Score
text raises ValueError is ingested with score 0; and a row is marked
leading exactly when its score is greatest among all rows. -/
theorem c7_leaderboard_ranking (csvRows : List Record) (out : List LeaderboardRow)
    (h : load_leaderboard_rows csvRows = Except.ok out) :
    ∃ processed, keptRows csvRows = Except.ok processed
  ∧ List.Pairwise (fun a b => b.Score ≤ a.Score) out
  ∧ out.Perm processed
  ∧ (∀ c : Int, out.filter (fun r => decide (r.Score = c)) =
        processed.filter (fun r => decide (r.Score = c)))
  ∧ (∀ row r, processLeaderboardRow row = Except.ok (some r) →
        pyIntFloat (scoreFieldText row) = Except.ok none → r.Score = 0)
  ∧ (∀ r ∈ out, (leaderMarked out r = true ↔ ∀ q ∈ out, q.Score ≤ r.Score)) := by
  cases hk : keptRows csvRows with
  | error e =>
    unfold load_leaderboard_rows at h
    rw [hk, exbind_err] at h
    exact absurd h (by simp)
  | ok processed =>
    unfold load_leaderboard_rows at h
    rw [hk, exbind_ok] at h
    have h2 : (Except.ok (sortLeaderboard processed) : Except PyRunError _) =
        Except.ok out := h
    injection h2 with h3
    have hout : out = sortLeaderboard processed := h3.symm
    subst hout
    have htrans : ∀ a b c : LeaderboardRow, leaderboardLE a b = true →
        leaderboardLE b c = true → leaderboardLE a c = true := by
      intro a b c h1 h4
      simp only [leaderboardLE, decide_eq_true_eq] at h1 h4 ⊢
      omega
    have htot : ∀ a b : LeaderboardRow, leaderboardLE a b = false →
        leaderboardLE b a = true := by
      intro a b hab
      simp only [leaderboardLE, decide_eq_false_iff_not] at hab
      simp only [leaderboardLE, decide_eq_true_eq]
      omega
    refine ⟨processed, rfl, ?_, ?_, ?_, processRow_score_zero, ?_⟩
    · apply List.Pairwise.imp ?_ (sortStable_pairwise leaderboardLE htrans htot processed)
      intro a b hab
      simpa [leaderboardLE] using hab
    · exact sortStable_perm leaderboardLE processed
    · intro c
      apply sortStable_filter
      intro a b ha hb
      simp only [decide_eq_true_eq] at ha hb
      simp only [leaderboardLE, decide_eq_true_eq]
      omega
    · intro r hr
      unfold leaderMarked
      rw [decide_eq_true_eq]
      exact topScore_spec _ r hr

theorem c7_witness :
    ∃ processed, keptRows [[("Player", "B"), ("Score", "5")], [("Player", ""), ("Score", "9")],
        [("Player", "A"), ("Score", "xx")], [("Player", "C"), ("Score", "5")]] =
        Except.ok processed
  ∧ List.Pairwise (fun a b => b.Score ≤ a.Score)
      [(⟨"B", 5, 0, 0, 0, 0⟩ : LeaderboardRow), ⟨"C", 5, 0, 0, 0, 0⟩, ⟨"A", 0, 0, 0, 0, 0⟩]
  ∧ List.Perm
      [(⟨"B", 5, 0, 0, 0, 0⟩ : LeaderboardRow), ⟨"C", 5, 0, 0, 0, 0⟩, ⟨"A", 0, 0, 0, 0, 0⟩]
      processed
  ∧ (∀ c : Int,
      List.filter (fun r => decide (r.Score = c))
        [(⟨"B", 5, 0, 0, 0, 0⟩ : LeaderboardRow), ⟨"C", 5, 0, 0, 0, 0⟩, ⟨"A", 0, 0, 0, 0, 0⟩] =
      processed.filter (fun r => decide (r.Score = c)))
  ∧ (∀ row r, processLeaderboardRow row = Except.ok (some r) →
        pyIntFloat (scoreFieldText row) = Except.ok none → r.Score = 0)
  ∧ (∀ r ∈ [(⟨"B", 5, 0, 0, 0, 0⟩ : LeaderboardRow), ⟨"C", 5, 0, 0, 0, 0⟩,
        ⟨"A", 0, 0, 0, 0, 0⟩],
      (leaderMarked [(⟨"B", 5, 0, 0, 0, 0⟩ : LeaderboardRow), ⟨"C", 5, 0, 0, 0, 0⟩,
          ⟨"A", 0, 0, 0, 0, 0⟩] r = true ↔
        ∀ q ∈ [(⟨"B", 5, 0, 0, 0, 0⟩ : LeaderboardRow), ⟨"C", 5, 0, 0, 0, 0⟩,
          ⟨"A", 0, 0, 0, 0, 0⟩], q.Score ≤ r.Score)) :=
  c7_leaderboard_ranking
    [[("Player", "B"), ("Score", "5")], [("Player", ""), ("Score", "9")],
     [("Player", "A"), ("Score", "xx")], [("Player", "C"), ("Score", "5")]]
    [⟨"B", 5, 0, 0, 0, 0⟩, ⟨"C", 5, 0, 0, 0, 0⟩, ⟨"A", 0, 0, 0, 0, 0⟩] rfl
